import Mathlib

/-!
Verification development for the Texas Hold'em betting engine
(`autonomous_poker_ai.py`).  The Python classes `Player`, `Pot`, `Table`,
`GameController`, `DeckManager` and `AIEngine` are shallowly embedded as Lean
structures and pure functions; Python `int` is modelled as `ℤ`, Python sets of
indices as `Finset ℤ`, and raised exceptions as `Except` results.  A raised
exception carries the state as mutated up to the raise point, so atomicity of
rejected actions is a provable property of the embedding rather than an
artifact of purity.
-/

/-- Error kinds of the engine.  The Python source raises `ValueError` with
distinguishing messages; the spec's taxonomy maps "Illegal action ..." to
`illegalAction` and the raise-amount complaints (missing amount, below the
minimum without being all-in, below the already-committed bet) to
`invalidRaiseAmount`.  `indexError`, `zeroDivision` and `invalidPhase` model
the runtime errors Python would raise on degenerate states. -/
inductive PokerError where
  | illegalAction
  | invalidRaiseAmount
  | invalidPhase
  | indexError
  | zeroDivision
deriving DecidableEq, Repr

/-- The four player actions accepted by `process_action`. -/
inductive PAction where
  | FOLD
  | CHECK
  | CALL
  | RAISE
deriving DecidableEq, Repr

/-- Betting phases, mirroring the Python `GamePhase` enum with values 0–4. -/
inductive GamePhase where
  | PRE_FLOP
  | FLOP
  | TURN
  | RIVER
  | SHOWDOWN
deriving DecidableEq, Repr

/-- Numeric value of a phase, as in the Python `Enum`. -/
def GamePhase.value : GamePhase → ℕ
  | .PRE_FLOP => 0
  | .FLOP => 1
  | .TURN => 2
  | .RIVER => 3
  | .SHOWDOWN => 4

/-- Partial inverse of `GamePhase.value`: `GamePhase(n)` in Python, which
raises `ValueError` (here `none`) on any other number. -/
def GamePhase.ofValue : ℕ → Option GamePhase
  | 0 => some .PRE_FLOP
  | 1 => some .FLOP
  | 2 => some .TURN
  | 3 => some .RIVER
  | 4 => some .SHOWDOWN
  | _ => none

/-- The `Player` model: chips are Python ints (`ℤ`), cards are treys card
codes (`ℕ`). -/
structure Player where
  name : String
  stack : ℤ
  is_ai : Bool
  hole_cards : List ℕ
  is_active : Bool
  is_all_in : Bool
  current_bet : ℤ
  total_invested : ℤ
deriving DecidableEq, Repr

/-- Constructor `Player.__init__`. -/
def mkPlayer (name : String) (stack : ℤ) (is_ai : Bool) : Player :=
  { name := name
    stack := stack
    is_ai := is_ai
    hole_cards := []
    is_active := true
    is_all_in := false
    current_bet := 0
    total_invested := 0 }

/-- Method `Player.reset_for_hand`. -/
def Player.resetForHand (p : Player) : Player :=
  { p with
    hole_cards := []
    is_active := decide (0 < p.stack)
    is_all_in := false
    current_bet := 0
    total_invested := 0 }

/-- Method `Player.reset_for_round`. -/
def Player.resetForRound (p : Player) : Player :=
  { p with current_bet := 0 }

/-- Method `Player.bet(amount)`: caps the amount at the stack (setting
`is_all_in` when the cap binds) and returns the updated player together with
the actual amount committed. -/
def Player.bet (p : Player) (amount : ℤ) : Player × ℤ :=
  let actual := if p.stack ≤ amount then p.stack else amount
  let allin := if p.stack ≤ amount then true else p.is_all_in
  ({ p with
      stack := p.stack - actual
      current_bet := p.current_bet + actual
      total_invested := p.total_invested + actual
      is_all_in := allin }, actual)

/-- The `Pot` model.  `eligible_players` is declared in the source but never
written to. -/
structure Pot where
  amount : ℤ
  eligible_players : List ℕ
deriving DecidableEq, Repr

/-- The `Table` model. -/
structure Table where
  players : List Player
  community_cards : List ℕ
  small_blind_amount : ℤ
  big_blind_amount : ℤ
  button_idx : ℤ
  pots : List Pot
deriving DecidableEq, Repr

/-- Constructor `Table.__init__(small_blind, big_blind)` with players added
afterwards via `add_player`. -/
def mkTable (players : List Player) (sb bb : ℤ) : Table :=
  { players := players
    community_cards := []
    small_blind_amount := sb
    big_blind_amount := bb
    button_idx := 0
    pots := [⟨0, []⟩] }

/-- Method `Table.reset_for_hand`. -/
def Table.resetForHand (t : Table) : Table :=
  { t with
    community_cards := []
    pots := [⟨0, []⟩]
    players := t.players.map Player.resetForHand }

/-- Method `Table.get_total_pot_size`. -/
def Table.getTotalPotSize (t : Table) : ℤ :=
  (t.pots.map Pot.amount).sum

/-- The `GameController` state: table plus the per-round betting machine
fields.  `acted_this_round` is a Python set of ints. -/
structure GameController where
  table : Table
  phase : GamePhase
  current_idx : ℤ
  min_raise : ℤ
  highest_bet : ℤ
  acted_this_round : Finset ℤ
deriving DecidableEq

/-- Constructor `GameController.__init__(table)`. -/
def mkGameController (t : Table) : GameController :=
  { table := t
    phase := .PRE_FLOP
    current_idx := 0
    min_raise := t.big_blind_amount
    highest_bet := 0
    acted_this_round := ∅ }

/-- Python list indexing semantics: a nonnegative index below the length, or a
negative index counted from the end; anything else is an `IndexError`. -/
def pyIdx (n : ℕ) (i : ℤ) : Option ℕ :=
  if 0 ≤ i ∧ i < (n : ℤ) then some i.toNat
  else if -(n : ℤ) ≤ i ∧ i < 0 then some (n - (-i).toNat)
  else none

/-- Read `table.players[i]` with Python indexing. -/
def getPlayer (t : Table) (i : ℤ) : Option Player :=
  (pyIdx t.players.length i).bind fun j => t.players.get? j

/-- Write back `table.players[i]` (the Python code mutates the player object
in place); out-of-range writes never occur where this is used. -/
def setPlayer (t : Table) (i : ℤ) (p : Player) : Table :=
  match pyIdx t.players.length i with
  | some j => { t with players := t.players.set j p }
  | none => t

/-- Call `table.pots[0].add(amount)`; `none` when the pots list is empty
(Python `IndexError`). -/
def potAdd (t : Table) (amount : ℤ) : Option Table :=
  match t.pots with
  | [] => none
  | p0 :: rest => some { t with pots := { p0 with amount := p0.amount + amount } :: rest }

/-- Method `GameController._next_active(start_idx)`: scan forward (wrapping)
for the next active, non-all-in player; `-1` when there is none. -/
def nextActive (t : Table) (start : ℤ) : ℤ :=
  let n := t.players.length
  match (List.range' 1 n).find? (fun i =>
      match getPlayer t ((start + (i : ℤ)) % (n : ℤ)) with
      | some p => p.is_active && !p.is_all_in
      | none => false) with
  | some i => (start + (i : ℤ)) % (n : ℤ)
  | none => -1

/-- Method `GameController.is_round_over`: the betting round is over when
every active, non-all-in player has acted since the last raise and is not
below the highest bet. -/
def isRoundOver (g : GameController) : Bool :=
  g.table.players.enum.all fun ip =>
    !(ip.2.is_active && !ip.2.is_all_in) ||
      (decide ((ip.1 : ℤ) ∈ g.acted_this_round) && !decide (ip.2.current_bet < g.highest_bet))

/-- Result of `get_legal_actions`: the Python dict maps `FOLD` to `True`,
`CALL` to an int, `CHECK` to a bool, and the two `RAISE_TO` keys to either an
int or `False` (here `Option ℤ`). -/
structure LegalActions where
  fold : Bool
  call : ℤ
  check : Bool
  raise_to_min : Option ℤ
  raise_to_max : Option ℤ
deriving DecidableEq, Repr

/-- Method `GameController.get_legal_actions` for a given current player. -/
def getLegalActions (g : GameController) (p : Player) : LegalActions :=
  let call_amt := g.highest_bet - p.current_bet
  { fold := true
    call := min call_amt p.stack
    check := decide (call_amt = 0)
    raise_to_min :=
      if call_amt < p.stack then some (min (g.highest_bet + g.min_raise) (p.stack + p.current_bet))
      else none
    raise_to_max := if call_amt < p.stack then some (p.stack + p.current_bet) else none }

/-- Python truthiness of the `RAISE_TO_MIN` dict entry: `False` and `0` are
falsy, any other int is truthy. -/
def raiseTruthy : Option ℤ → Bool
  | none => false
  | some v => decide (v ≠ 0)

/-- Tail of `process_action` after a successful action: record the actor in
the acted-set and, if the round is not over, advance to the next eligible
player. -/
def finishAction (g : GameController) : GameController :=
  let g1 := { g with acted_this_round := insert g.current_idx g.acted_this_round }
  if isRoundOver g1 then g1
  else { g1 with current_idx := nextActive g1.table g1.current_idx }

/-- Method `GameController.process_action(action, amount)`.  Errors carry the
state as mutated up to the raise point (only the never-taken empty-pots branch
can carry a mutated state). -/
def processAction (g : GameController) (action : PAction) (amount : ℤ) :
    Except (PokerError × GameController) GameController :=
  match getPlayer g.table g.current_idx with
  | none => .error (.indexError, g)
  | some p =>
    let legal := getLegalActions g p
    match action with
    | .FOLD =>
      let t := setPlayer g.table g.current_idx { p with is_active := false }
      .ok (finishAction { g with table := t })
    | .CHECK =>
      if legal.check then .ok (finishAction g)
      else .error (.illegalAction, g)
    | .CALL =>
      -- the test `legal['CALL'] is not False` always holds: the entry is an int
      let pa := p.bet legal.call
      let t := setPlayer g.table g.current_idx pa.1
      match potAdd t pa.2 with
      | none => .error (.indexError, { g with table := t })
      | some t2 => .ok (finishAction { g with table := t2 })
    | .RAISE =>
      if raiseTruthy legal.raise_to_min then
        if amount = 0 then .error (.invalidRaiseAmount, g)
        else
          let min_legal := g.highest_bet + g.min_raise
          if amount < min_legal ∧ amount ≠ p.stack + p.current_bet then
            .error (.invalidRaiseAmount, g)
          else
            let raise_add := amount - p.current_bet
            if raise_add < 0 then .error (.invalidRaiseAmount, g)
            else
              let pa := p.bet raise_add
              let t := setPlayer g.table g.current_idx pa.1
              match potAdd t pa.2 with
              | none => .error (.indexError, { g with table := t })
              | some t2 =>
                let g2 := { g with table := t2 }
                let g3 :=
                  if g2.min_raise ≤ amount - g2.highest_bet then
                    { g2 with
                      min_raise := amount - g2.highest_bet
                      acted_this_round := ∅ }
                  else g2
                .ok (finishAction { g3 with highest_bet := amount })
      else .error (.illegalAction, g)

/-- The button advance of `start_hand`:
`button_idx = (button_idx + 1) % len(players)`. -/
def advanceButton (t : Table) : Table :=
  { t with button_idx := (t.button_idx + 1) % (t.players.length : ℤ) }

/-- Method `GameController.start_hand`: reset, advance the button, post the
blinds, initialise the round state.  `zeroDivision` models Python's crash on
an empty player list (after the reset has already happened). -/
def startHand (g : GameController) : Except (PokerError × GameController) GameController :=
  let t0 := g.table.resetForHand
  let g0 := { g with table := t0, phase := .PRE_FLOP }
  let n := t0.players.length
  if n = 0 then .error (.zeroDivision, g0)
  else
    let t1 := advanceButton t0
    let sb := nextActive t1 t1.button_idx
    let bb := nextActive t1 sb
    match getPlayer t1 sb with
    | none => .error (.indexError, { g0 with table := t1 })
    | some psb =>
      let sbp := psb.bet t1.small_blind_amount
      let t2 := setPlayer t1 sb sbp.1
      match getPlayer t2 bb with
      | none => .error (.indexError, { g0 with table := t2 })
      | some pbb =>
        let bbp := pbb.bet t2.big_blind_amount
        let t3 := setPlayer t2 bb bbp.1
        match potAdd t3 (sbp.2 + bbp.2) with
        | none => .error (.indexError, { g0 with table := t3 })
        | some t4 =>
          .ok { g0 with
                table := t4
                highest_bet := t4.big_blind_amount
                min_raise := t4.big_blind_amount
                current_idx := nextActive t4 bb
                acted_this_round := ∅ }

/-- The per-round reset of `advance_phase`: every player's `reset_for_round`. -/
def resetRounds (t : Table) : Table :=
  { t with players := t.players.map Player.resetForRound }

/-- Method `GameController.advance_phase`: step the phase, reset per-round
state.  `invalidPhase` models Python's `ValueError` from `GamePhase(value+1)`
past `SHOWDOWN`, raised before any mutation. -/
def advancePhase (g : GameController) : Except (PokerError × GameController) GameController :=
  match GamePhase.ofValue (g.phase.value + 1) with
  | none => .error (.invalidPhase, g)
  | some ph =>
    let t := resetRounds g.table
    .ok { g with
          phase := ph
          table := t
          highest_bet := 0
          min_raise := t.big_blind_amount
          acted_this_round := ∅
          current_idx := nextActive t t.button_idx }

/-- Chip total invested by all players. -/
def sumInvested (t : Table) : ℤ :=
  (t.players.map Player.total_invested).sum

/-- Chip total across all pots. -/
def sumPots (t : Table) : ℤ :=
  (t.pots.map Pot.amount).sum

/-- States reachable from table setup (players fresh from the constructor)
through successful `start_hand`, `process_action` and `advance_phase` calls. -/
inductive Reachable : GameController → Prop
  | setup (specs : List (String × ℤ × Bool)) (sb bb : ℤ) :
      Reachable (mkGameController (mkTable (specs.map fun s => mkPlayer s.1 s.2.1 s.2.2) sb bb))
  | start {g g' : GameController} : Reachable g → startHand g = .ok g' → Reachable g'
  | act {g g' : GameController} {a : PAction} {amt : ℤ} :
      Reachable g → processAction g a amt = .ok g' → Reachable g'
  | adv {g g' : GameController} : Reachable g → advancePhase g = .ok g' → Reachable g'

/-! ### AI engine: Monte Carlo equity sampler and decision policy -/

/-- Truncation toward zero, the semantics of Python `int(float)`. -/
def ratTrunc (q : ℚ) : ℤ :=
  if 0 ≤ q then ⌊q⌋ else -⌊-q⌋

/-- Modelled from the spec: the treys `Deck` (an external library) is "the
universe of 52 cards"; only the count and pairwise distinctness of the card
codes matter to the sampler, so the codes are taken to be `0..51`. -/
def fullDeck : List ℕ :=
  List.range 52

/-- One simulation trial of `_monte_carlo_equity`, given the shuffled list of
available cards: pop two opponent hole cards off the end, then pop enough
cards to complete a five-card board, evaluate both hands and return the
(win, tie) increment.  `evalRank` stands for the external treys
`Evaluator.evaluate` (lower rank is better). -/
def mcTrial (evalRank : List ℕ → List ℕ → ℕ) (pocket board avail : List ℕ) : ℕ × ℕ :=
  let draws := avail.reverse.take (2 + (5 - board.length))
  let opp := draws.take 2
  let simBoard := board ++ draws.drop 2
  let aiRank := evalRank simBoard pocket
  let oppRank := evalRank simBoard opp
  if aiRank < oppRank then (1, 0) else if aiRank = oppRank then (0, 1) else (0, 0)

/-- The available cards for trial `t`: the full deck minus the known cards, in
the order produced by the trial's `random.shuffle` (modelled by the oracle
`shuffle`, constrained to permute its input in the theorems). -/
def mcAvail (shuffle : ℕ → List ℕ → List ℕ) (known : List ℕ) (t : ℕ) : List ℕ :=
  shuffle t (fullDeck.filter fun c => decide (c ∉ known))

/-- Method `AIEngine._monte_carlo_equity(pocket_cards, board_cards,
iterations)`: returns `(wins + ties/2) / iterations` over the trials, and
`0.0` immediately when the pocket is empty. -/
def mcEquity (evalRank : List ℕ → List ℕ → ℕ) (shuffle : ℕ → List ℕ → List ℕ)
    (pocket board : List ℕ) (iterations : ℕ) : ℚ :=
  if pocket = [] then 0
  else
    let known := pocket ++ board
    let wt := (List.range iterations).foldl
      (fun acc t =>
        (acc.1 + (mcTrial evalRank pocket board (mcAvail shuffle known t)).1,
         acc.2 + (mcTrial evalRank pocket board (mcAvail shuffle known t)).2)) (0, 0)
    ((wt.1 : ℚ) + (wt.2 : ℚ) / 2) / (iterations : ℚ)

/-- A decision of the AI engine.  The human-readable `reason` string of the
source is presentation-only and omitted. -/
structure Decision where
  action : PAction
  amount : ℤ
deriving DecidableEq, Repr

/-- Method `AIEngine.get_decision(game, ai_player)`: the rule-based policy.
The equity value (in the source, the output of `_monte_carlo_equity` on the
player's hole cards and the community cards) is passed in explicitly; `none`
models the `IndexError` when the current actor index is out of range. -/
def getDecision (g : GameController) (aiPlayer : Player) (equity : ℚ) : Option Decision :=
  (getPlayer g.table g.current_idx).map fun cur =>
    let legal := getLegalActions g cur
    let pot := g.table.getTotalPotSize
    let toCall := if legal.call ≠ 0 then legal.call else 0
    let potOdds : ℚ := if 0 < toCall then (toCall : ℚ) / ((pot : ℚ) + (toCall : ℚ)) else 0
    if 7/10 < equity ∧ raiseTruthy legal.raise_to_min = true then
      let minRaiseAbs := g.highest_bet + g.min_raise
      let target := g.highest_bet + ratTrunc ((pot : ℚ) * (equity - 1/2))
      ⟨.RAISE, min (max minRaiseAbs target) (aiPlayer.stack + aiPlayer.current_bet)⟩
    else if potOdds < equity then
      if legal.check then ⟨.CHECK, 0⟩ else ⟨.CALL, toCall⟩
    else
      if legal.check then ⟨.CHECK, 0⟩ else ⟨.FOLD, 0⟩

/-! ### Card parser (`DeckManager.parse_card`) -/

/-- Error kinds of card parsing, following the spec's taxonomy for the
`ValueError`s raised by `DeckManager`. -/
inductive CardError where
  | invalidFormat
  | invalidSuitOrRank
  | duplicateCard
deriving DecidableEq, Repr

/-- Python `\s` whitespace characters (ASCII). -/
def isPySpace (c : Char) : Bool :=
  c = ' ' || c = '\t' || c = '\n' || c = '\x0d' || c = '\x0b' || c = '\x0c'

/-- Python `str.strip()` on a character list. -/
def stripChars (l : List Char) : List Char :=
  ((l.dropWhile isPySpace).reverse.dropWhile isPySpace).reverse

/-- Python `re.sub(r'\s+', ' ', l)`: every maximal whitespace run becomes a
single space. -/
def collapseWS : List Char → List Char
  | [] => []
  | [c] => [if isPySpace c then ' ' else c]
  | c1 :: c2 :: rest =>
    if isPySpace c1 && isPySpace c2 then collapseWS (c2 :: rest)
    else (if isPySpace c1 then ' ' else c1) :: collapseWS (c2 :: rest)

/-- Python `str.split(' ')`: split on each single space (empty input gives one
empty token, as in Python). -/
def splitSp : List Char → List (List Char)
  | [] => [[]]
  | c :: rest =>
    match splitSp rest with
    | [] => [[]]
    | t :: ts => if c = ' ' then [] :: t :: ts else (c :: t) :: ts

/-- The token list of `card_str.strip().upper()` after whitespace
normalization, as used by `parse_card`.  `Char.toUpper` matches Python
`str.upper` on the ASCII inputs the grammar accepts. -/
def pyTokens (s : String) : List String :=
  (splitSp (collapseWS ((stripChars s.data).map Char.toUpper))).map fun l => String.mk l

/-- The `DeckManager.SUITS` dictionary. -/
def SUITS : String → Option Char
  | "SPADE" => some 's'
  | "SPADES" => some 's'
  | "HEART" => some 'h'
  | "HEARTS" => some 'h'
  | "DIAMOND" => some 'd'
  | "DIAMONDS" => some 'd'
  | "CLUB" => some 'c'
  | "CLUBS" => some 'c'
  | _ => none

/-- The `DeckManager.RANKS` dictionary. -/
def RANKS : String → Option Char
  | "TWO" => some '2'
  | "2" => some '2'
  | "THREE" => some '3'
  | "3" => some '3'
  | "FOUR" => some '4'
  | "4" => some '4'
  | "FIVE" => some '5'
  | "5" => some '5'
  | "SIX" => some '6'
  | "6" => some '6'
  | "SEVEN" => some '7'
  | "7" => some '7'
  | "EIGHT" => some '8'
  | "8" => some '8'
  | "NINE" => some '9'
  | "9" => some '9'
  | "TEN" => some 'T'
  | "10" => some 'T'
  | "JACK" => some 'J'
  | "QUEEN" => some 'Q'
  | "KING" => some 'K'
  | "ACE" => some 'A'
  | _ => none

/-- Combine a suit token and a rank token into the canonical two-character
card text handed to `Card.new` (rank character first), when both map. -/
def cardOfTokens (suitTok rankTok : String) : Option String :=
  match SUITS suitTok, RANKS rankTok with
  | some sc, some rc => some (String.mk [rc, sc])
  | _, _ => none

/-- Method `DeckManager.parse_card(card_str)`.  The success value is the
two-character canonical text passed to the external `Card.new`. -/
def parseCard (s : String) : Except CardError String :=
  match pyTokens s with
  | [a, b] =>
    let sw_rw := if (RANKS a).isSome && (SUITS b).isSome then (b, a) else (a, b)
    match SUITS sw_rw.1, RANKS sw_rw.2 with
    | some sc, some rc => .ok (String.mk [rc, sc])
    | _, _ => .error .invalidSuitOrRank
  | [a, b, c0] =>
    if b = "OF" then
      match SUITS c0, RANKS a with
      | some sc, some rc => .ok (String.mk [rc, sc])
      | _, _ => .error .invalidSuitOrRank
    else .error .invalidFormat
  | _ => .error .invalidFormat

/-- The parser as the claim describes it: exactly the two forms
`<Suit> <Rank>` and `<Rank> OF <Suit>`; anything else is `invalidFormat`, and
a well-formed shape whose tokens do not map is `invalidSuitOrRank`. -/
def parseCardSpecClaimed (s : String) : Except CardError String :=
  match pyTokens s with
  | [a, b] =>
    match cardOfTokens a b with
    | some c => .ok c
    | none => .error .invalidSuitOrRank
  | [a, b, c0] =>
    if b = "OF" then
      match cardOfTokens c0 a with
      | some c => .ok c
      | none => .error .invalidSuitOrRank
    else .error .invalidFormat
  | _ => .error .invalidFormat

/-- The amended description: the two-token form is accepted in either order,
`<Rank> <Suit>` taking precedence (no token is both a rank and a suit, so the
precedence is immaterial); the three-token form is `<Rank> OF <Suit>`. -/
def parseCardSpecAmended (s : String) : Except CardError String :=
  match pyTokens s with
  | [a, b] =>
    match cardOfTokens b a with
    | some c => .ok c
    | none =>
      match cardOfTokens a b with
      | some c => .ok c
      | none => .error .invalidSuitOrRank
  | [a, b, c0] =>
    if b = "OF" then
      match cardOfTokens c0 a with
      | some c => .ok c
      | none => .error .invalidSuitOrRank
    else .error .invalidFormat
  | _ => .error .invalidFormat

/-! ### Concrete scenarios and claim-level specification functions -/

instance {ε α : Type} [DecidableEq ε] [DecidableEq α] : DecidableEq (Except ε α)
  | .ok a, .ok b =>
    if h : a = b then isTrue (by subst h; rfl) else isFalse (by intro hh; cases hh; exact h rfl)
  | .ok _, .error _ => isFalse (by intro hh; cases hh)
  | .error _, .ok _ => isFalse (by intro hh; cases hh)
  | .error e, .error f =>
    if h : e = f then isTrue (by subst h; rfl) else isFalse (by intro hh; cases hh; exact h rfl)

/-- Extract the success state, falling back to the carried error state. -/
def okState (r : Except (PokerError × GameController) GameController) : GameController :=
  match r with
  | .ok g => g
  | .error e => e.2

/-- Two players with stack 1000 and blinds 10/20, as in the main loop's
default configuration and the spec's first scenario. -/
def demoTable : GameController :=
  mkGameController (mkTable [mkPlayer "AI_Bot" 1000 true, mkPlayer "Human" 1000 false] 10 20)

/-- The state right after `start_hand()` on `demoTable`. -/
def demoHand : GameController :=
  okState (startHand demoTable)

/-- The small-blind player of `demoHand` (index 0, having posted 10). -/
def demoActor : Player :=
  { mkPlayer "AI_Bot" 1000 true with
    stack := 990
    current_bet := 10
    total_invested := 10 }

/-- `demoHand` after the small blind calls. -/
def demoAfterCall : GameController :=
  okState (processAction demoHand .CALL 0)

/-- `demoAfterCall` after the big blind checks. -/
def demoAfterCheck : GameController :=
  okState (processAction demoAfterCall .CHECK 0)

/-- `demoHand` after the small blind raises to a total of 60. -/
def demoRaised : GameController :=
  okState (processAction demoHand .RAISE 60)

/-- Two players with stack 100 and blinds 100/200 (big blind 200, small blind
`bb // 2` as configured by the main loop), the spec's forced-all-in
scenario. -/
def tinyTable : GameController :=
  mkGameController (mkTable [mkPlayer "Human" 100 false, mkPlayer "AI_Bot" 100 true] 100 200)

/-- The state right after `start_hand()` on `tinyTable`. -/
def tinyHand : GameController :=
  okState (startHand tinyTable)

/-- Blinds 10/20 with a short-stacked second player: after the first player
raises to 60, the second player faces a call of 40 with a stack of 30, so
raising is not legal for them. -/
def shortTable : GameController :=
  mkGameController (mkTable [mkPlayer "P1" 200 false, mkPlayer "P2" 50 false] 10 20)

/-- The state right after `start_hand()` on `shortTable`. -/
def shortHand : GameController :=
  okState (startHand shortTable)

/-- `shortHand` after a raise to 60 by player 0; the actor is now the
short-stacked player 1. -/
def shortRaised : GameController :=
  okState (processAction shortHand .RAISE 60)

/-- A state in which an active, non-all-in player who has acted holds a
current bet strictly above the highest bet (the engine can reach such states
through a short all-in raise, which lowers `highest_bet`). -/
def overBetState : GameController :=
  { table := mkTable [{ mkPlayer "P" 100 false with current_bet := 50 }] 10 20
    phase := .PRE_FLOP
    current_idx := 0
    min_raise := 20
    highest_bet := 20
    acted_this_round := {0} }

/-- The round-over test as the claim words it: every active, non-all-in
player is in the acted-set and has `current_bet` equal (not merely not
below) to `highest_bet`. -/
def roundOverSpecClaimed (g : GameController) : Bool :=
  g.table.players.enum.all fun ip =>
    !(ip.2.is_active && !ip.2.is_all_in) ||
      (decide ((ip.1 : ℤ) ∈ g.acted_this_round) && decide (ip.2.current_bet = g.highest_bet))

/-- The cards popped by trial `t` of the sampler, in draw order: two opponent
hole cards followed by the board completion. -/
def trialDraws (shuffle : ℕ → List ℕ → List ℕ) (pocket board : List ℕ) (t : ℕ) : List ℕ :=
  (mcAvail shuffle (pocket ++ board) t).reverse.take (2 + (5 - board.length))

/-- Whether trial `t` scores a win: the opponent's evaluator rank is strictly
worse (greater, since lower treys ranks are stronger). -/
def trialWin (evalRank : List ℕ → List ℕ → ℕ) (shuffle : ℕ → List ℕ → List ℕ)
    (pocket board : List ℕ) (t : ℕ) : Bool :=
  let draws := trialDraws shuffle pocket board t
  let simBoard := board ++ draws.drop 2
  decide (evalRank simBoard pocket < evalRank simBoard (draws.take 2))

/-- Whether trial `t` scores a tie: equal evaluator ranks. -/
def trialTie (evalRank : List ℕ → List ℕ → ℕ) (shuffle : ℕ → List ℕ → List ℕ)
    (pocket board : List ℕ) (t : ℕ) : Bool :=
  let draws := trialDraws shuffle pocket board t
  let simBoard := board ++ draws.drop 2
  decide (evalRank simBoard pocket = evalRank simBoard (draws.take 2))

/-- The pot-odds quantity as §4.6 of the spec words it, taking "call amount"
to be the `CALL` entry of the legal actions: `call / (pot + call)` when the
call amount is positive, else `0`. -/
def potOddsOf (g : GameController) (p : Player) : ℚ :=
  let call := (getLegalActions g p).call
  if 0 < call then (call : ℚ) / ((g.table.getTotalPotSize : ℚ) + (call : ℚ)) else 0

/-! ### Helper lemmas -/

theorem finishFields (g : GameController) :
    (finishAction g).min_raise = g.min_raise ∧
    (finishAction g).highest_bet = g.highest_bet ∧
    (finishAction g).acted_this_round = insert g.current_idx g.acted_this_round ∧
    (finishAction g).table = g.table := by
  unfold finishAction
  dsimp only
  split <;> exact ⟨rfl, rfl, rfl, rfl⟩

theorem sum_map_set (f : Player → ℤ) (l : List Player) : ∀ (j : ℕ) (p p' : Player),
    l.get? j = some p → ((l.set j p').map f).sum = (l.map f).sum + f p' - f p := by
  induction l with
  | nil => intro j p p' h; simp at h
  | cons x xs ih =>
    intro j p p' h
    cases j with
    | zero =>
      simp only [List.get?_cons_zero, Option.some_inj] at h
      subst h
      simp only [List.set_cons_zero, List.map_cons, List.sum_cons]
      ring
    | succ j =>
      simp only [List.get?_cons_succ] at h
      simp only [List.set_cons_succ, List.map_cons, List.sum_cons, ih j p p' h]
      ring

theorem getPlayer_some {t : Table} {i : ℤ} {p : Player} (h : getPlayer t i = some p) :
    ∃ j : ℕ, pyIdx t.players.length i = some j ∧ t.players.get? j = some p := by
  unfold getPlayer at h
  cases hj : pyIdx t.players.length i with
  | none => rw [hj] at h; simp at h
  | some j => rw [hj] at h; exact ⟨j, rfl, h⟩

theorem sumInvested_setPlayer {t : Table} {i : ℤ} {p : Player} (p' : Player)
    (h : getPlayer t i = some p) :
    sumInvested (setPlayer t i p') = sumInvested t + p'.total_invested - p.total_invested := by
  obtain ⟨j, hj, hget⟩ := getPlayer_some h
  unfold setPlayer
  rw [hj]
  exact sum_map_set _ _ j p p' hget

theorem sumPots_setPlayer (t : Table) (i : ℤ) (p' : Player) :
    sumPots (setPlayer t i p') = sumPots t := by
  unfold setPlayer
  split <;> rfl

theorem potAdd_sums {t t' : Table} {a : ℤ} (h : potAdd t a = some t') :
    sumPots t' = sumPots t + a ∧ t'.players = t.players := by
  unfold potAdd at h
  cases hp : t.pots with
  | nil => rw [hp] at h; simp at h
  | cons p0 rest =>
    rw [hp] at h
    injection h with h2
    subst h2
    refine ⟨?_, rfl⟩
    unfold sumPots
    rw [hp]
    simp
    ring

theorem sumInvested_potAdd {t t' : Table} {a : ℤ} (h : potAdd t a = some t') :
    sumInvested t' = sumInvested t := by
  unfold sumInvested
  rw [(potAdd_sums h).2]

theorem sum_map_zero {α : Type} (l : List α) (f : α → ℤ) (hf : ∀ p, f p = 0) :
    (l.map f).sum = 0 := by
  induction l with
  | nil => rfl
  | cons x xs ih => simp [hf, ih]

theorem sumInvested_reset (t : Table) : sumInvested t.resetForHand = 0 := by
  unfold sumInvested Table.resetForHand
  dsimp only
  rw [List.map_map]
  exact sum_map_zero _ _ fun p => rfl

theorem sumPots_reset (t : Table) : sumPots t.resetForHand = 0 := rfl

theorem sumInvested_advanceButton (t : Table) :
    sumInvested (advanceButton t) = sumInvested t := rfl

theorem sumPots_advanceButton (t : Table) : sumPots (advanceButton t) = sumPots t := rfl

theorem bet_invested (p : Player) (a : ℤ) :
    (p.bet a).1.total_invested = p.total_invested + (p.bet a).2 := rfl

theorem sumInvested_resetRounds (t : Table) : sumInvested (resetRounds t) = sumInvested t := by
  unfold sumInvested resetRounds
  dsimp only
  rw [List.map_map]
  rfl

theorem sumPots_resetRounds (t : Table) : sumPots (resetRounds t) = sumPots t := rfl

theorem inv_start {g g' : GameController} (h : startHand g = .ok g') :
    sumInvested g'.table = sumPots g'.table := by
  unfold startHand at h
  dsimp only at h
  split at h
  · simp at h
  · split at h
    · simp at h
    · split at h
      · simp at h
      · split at h
        · simp at h
        · rename_i _ psb hsb _ pbb hbb _ t4 hpot
          injection h with h2
          subst h2
          show sumInvested t4 = sumPots t4
          rw [sumInvested_potAdd hpot, (potAdd_sums hpot).1]
          rw [sumInvested_setPlayer _ hbb, bet_invested, sumPots_setPlayer]
          rw [sumInvested_setPlayer _ hsb, bet_invested, sumPots_setPlayer]
          rw [sumInvested_advanceButton, sumPots_advanceButton, sumInvested_reset,
            sumPots_reset]
          ring

theorem inv_act {g g' : GameController} {a : PAction} {amt : ℤ}
    (h : processAction g a amt = .ok g') (ih : sumInvested g.table = sumPots g.table) :
    sumInvested g'.table = sumPots g'.table := by
  unfold processAction at h
  rcases hget : getPlayer g.table g.current_idx with _ | p
  · rw [hget] at h; simp at h
  · rw [hget] at h
    cases a with
    | FOLD =>
      dsimp only at h
      injection h with h2
      subst h2
      rw [(finishFields _).2.2.2]
      dsimp only
      rw [sumInvested_setPlayer _ hget, sumPots_setPlayer]
      dsimp only
      rw [ih]
      ring
    | CHECK =>
      dsimp only at h
      split at h
      · injection h with h2
        subst h2
        rw [(finishFields _).2.2.2]
        exact ih
      · simp at h
    | CALL =>
      dsimp only at h
      split at h
      · simp at h
      · rename_i t2 hpot
        injection h with h2
        subst h2
        rw [(finishFields _).2.2.2]
        dsimp only
        rw [sumInvested_potAdd hpot, (potAdd_sums hpot).1]
        rw [sumInvested_setPlayer _ hget, bet_invested, sumPots_setPlayer, ih]
        ring
    | RAISE =>
      dsimp only at h
      split at h
      · split at h
        · simp at h
        · split at h
          · simp at h
          · split at h
            · simp at h
            · split at h
              · simp at h
              · rename_i t2 hpot
                injection h with h2
                subst h2
                rw [(finishFields _).2.2.2]
                by_cases hge : g.min_raise ≤ amt - g.highest_bet
                · simp only [hge, if_true]
                  rw [sumInvested_potAdd hpot, (potAdd_sums hpot).1]
                  rw [sumInvested_setPlayer _ hget, bet_invested, sumPots_setPlayer, ih]
                  ring
                · simp only [hge, if_false]
                  rw [sumInvested_potAdd hpot, (potAdd_sums hpot).1]
                  rw [sumInvested_setPlayer _ hget, bet_invested, sumPots_setPlayer, ih]
                  ring
      · simp at h

theorem inv_adv {g g' : GameController} (h : advancePhase g = .ok g')
    (ih : sumInvested g.table = sumPots g.table) :
    sumInvested g'.table = sumPots g'.table := by
  unfold advancePhase at h
  split at h
  · simp at h
  · injection h with h2
    subst h2
    show sumInvested (resetRounds g.table) = sumPots (resetRounds g.table)
    rw [sumInvested_resetRounds, sumPots_resetRounds, ih]

theorem foldl_pair_counts (f : ℕ → ℕ × ℕ) (l : List ℕ) (a b : ℕ) :
    l.foldl (fun acc t => (acc.1 + (f t).1, acc.2 + (f t).2)) (a, b) =
      (a + (l.map fun t => (f t).1).sum, b + (l.map fun t => (f t).2).sum) := by
  induction l generalizing a b with
  | nil => simp
  | cons x xs ih => simp [ih, add_assoc]

theorem indicator_sum_countP (l : List ℕ) (p : ℕ → Bool) :
    (l.map fun t => if p t then 1 else 0).sum = l.countP p := by
  induction l with
  | nil => rfl
  | cons x xs ih =>
    by_cases h : p x = true <;>
      simp [List.countP_cons, h, ih, Nat.add_comm]

theorem countP_disjoint_le (l : List ℕ) (p q : ℕ → Bool)
    (hpq : ∀ t, p t = true → q t = false) :
    l.countP p + l.countP q ≤ l.length := by
  induction l with
  | nil => simp
  | cons x xs ih =>
    simp only [List.countP_cons, List.length_cons]
    by_cases hp : p x = true
    · have hq := hpq x hp
      simp [hp, hq]
      omega
    · simp only [Bool.not_eq_true] at hp
      by_cases hq : q x = true <;> simp [hp, hq] <;> omega

theorem pair_fst_ite (a b : ℕ) :
    (if a < b then ((1:ℕ), (0:ℕ)) else if a = b then (0, 1) else (0, 0)).1 =
      if a < b then 1 else 0 := by
  rcases lt_trichotomy a b with h | h | h
  · simp [h]
  · simp [h]
  · have h1 : ¬a < b := Nat.lt_asymm h
    have h2 : a ≠ b := (Nat.ne_of_lt h).symm
    simp [h1, h2]

theorem pair_snd_ite (a b : ℕ) :
    (if a < b then ((1:ℕ), (0:ℕ)) else if a = b then (0, 1) else (0, 0)).2 =
      if a = b then 1 else 0 := by
  rcases lt_trichotomy a b with h | h | h
  · simp [h, Nat.ne_of_lt h]
  · simp [h]
  · have h1 : ¬a < b := Nat.lt_asymm h
    have h2 : a ≠ b := (Nat.ne_of_lt h).symm
    simp [h1, h2]

theorem mcTrial_fst (e : List ℕ → List ℕ → ℕ) (sh : ℕ → List ℕ → List ℕ)
    (pocket board : List ℕ) (t : ℕ) :
    (mcTrial e pocket board (mcAvail sh (pocket ++ board) t)).1 =
      if trialWin e sh pocket board t then 1 else 0 := by
  unfold mcTrial trialWin trialDraws
  simp only [decide_eq_true_eq]
  exact pair_fst_ite _ _

theorem mcTrial_snd (e : List ℕ → List ℕ → ℕ) (sh : ℕ → List ℕ → List ℕ)
    (pocket board : List ℕ) (t : ℕ) :
    (mcTrial e pocket board (mcAvail sh (pocket ++ board) t)).2 =
      if trialTie e sh pocket board t then 1 else 0 := by
  unfold mcTrial trialTie trialDraws
  simp only [decide_eq_true_eq]
  exact pair_snd_ite _ _

theorem trialWin_not_tie (e : List ℕ → List ℕ → ℕ) (sh : ℕ → List ℕ → List ℕ)
    (pocket board : List ℕ) (t : ℕ) (h : trialWin e sh pocket board t = true) :
    trialTie e sh pocket board t = false := by
  unfold trialWin at h
  unfold trialTie
  simp only [decide_eq_true_eq] at h
  simp only [decide_eq_false_iff_not]
  omega

theorem nodup_length_le_of_subset (l l' : List ℕ) (hnd : l.Nodup) (hsub : ∀ c ∈ l, c ∈ l') :
    l.length ≤ l'.length := by
  have h1 : l.toFinset.card = l.length := List.toFinset_card_of_nodup hnd
  have h2 : l.toFinset ⊆ l'.toFinset := by
    intro c hc
    rw [List.mem_toFinset] at hc
    rw [List.mem_toFinset]
    exact hsub c hc
  have h3 := Finset.card_le_card h2
  have h4 := l'.toFinset_card_le
  omega

theorem fullDeck_nodup : fullDeck.Nodup := List.nodup_range 52

theorem filter_known_length (known : List ℕ) :
    52 - known.length ≤ (fullDeck.filter fun c => decide (c ∉ known)).length := by
  have hlen : fullDeck.length = 52 := by simp [fullDeck]
  have hsplit := List.length_eq_length_filter_add (l := fullDeck)
    (fun c => decide (c ∉ known))
  have hbad : (fullDeck.filter fun c => !decide (c ∉ known)).length ≤ known.length := by
    apply nodup_length_le_of_subset _ _ (List.Nodup.filter _ fullDeck_nodup)
    intro c hc
    have := List.of_mem_filter hc
    simp only [Bool.not_eq_true', decide_eq_false_iff_not, not_not] at this
    exact this
  omega

theorem trialDraws_props (sh : ℕ → List ℕ → List ℕ) (pocket board : List ℕ) (t : ℕ)
    (hsize : pocket.length + board.length ≤ 7)
    (hperm : (sh t (fullDeck.filter fun c => decide (c ∉ pocket ++ board))).Perm
      (fullDeck.filter fun c => decide (c ∉ pocket ++ board))) :
    (trialDraws sh pocket board t).length = 2 + (5 - board.length) ∧
    (trialDraws sh pocket board t).Nodup ∧
    ∀ c ∈ trialDraws sh pocket board t, c ∉ pocket ∧ c ∉ board := by
  have hndflt : (fullDeck.filter fun c => decide (c ∉ pocket ++ board)).Nodup :=
    List.Nodup.filter _ fullDeck_nodup
  have hnd : (mcAvail sh (pocket ++ board) t).Nodup := hperm.nodup_iff.2 hndflt
  have hlenflt := filter_known_length (pocket ++ board)
  have hlen : (mcAvail sh (pocket ++ board) t).length =
      (fullDeck.filter fun c => decide (c ∉ pocket ++ board)).length := hperm.length_eq
  have hka : (pocket ++ board).length = pocket.length + board.length := List.length_append _ _
  have hbig : 2 + (5 - board.length) ≤ (mcAvail sh (pocket ++ board) t).length := by omega
  refine ⟨?_, ?_, ?_⟩
  · unfold trialDraws
    rw [List.length_take, List.length_reverse]
    omega
  · unfold trialDraws
    exact List.Nodup.sublist (List.take_sublist _ _) (List.nodup_reverse.2 hnd)
  · intro c hc
    unfold trialDraws at hc
    have hc2 : c ∈ (mcAvail sh (pocket ++ board) t).reverse := List.mem_of_mem_take hc
    rw [List.mem_reverse] at hc2
    have hc3 : c ∈ fullDeck.filter fun c => decide (c ∉ pocket ++ board) :=
      hperm.mem_iff.1 hc2
    have := List.of_mem_filter hc3
    simp only [decide_eq_true_eq, List.mem_append, not_or] at this
    exact this

theorem mc_formula (e : List ℕ → List ℕ → ℕ) (sh : ℕ → List ℕ → List ℕ)
    (pocket board : List ℕ) (n : ℕ) (hpock : pocket ≠ []) :
    mcEquity e sh pocket board n =
      (((List.range n).countP (trialWin e sh pocket board) : ℚ) +
        ((List.range n).countP (trialTie e sh pocket board) : ℚ) / 2) / (n : ℚ) := by
  unfold mcEquity
  rw [if_neg hpock]
  dsimp only
  rw [foldl_pair_counts (fun t => mcTrial e pocket board (mcAvail sh (pocket ++ board) t))]
  simp only [mcTrial_fst, mcTrial_snd, indicator_sum_countP, Nat.zero_add]

theorem mc_bounds (e : List ℕ → List ℕ → ℕ) (sh : ℕ → List ℕ → List ℕ)
    (pocket board : List ℕ) (n : ℕ) (hpock : pocket ≠ []) (hn : 0 < n) :
    0 ≤ mcEquity e sh pocket board n ∧ mcEquity e sh pocket board n ≤ 1 := by
  rw [mc_formula e sh pocket board n hpock]
  have hcount : (List.range n).countP (trialWin e sh pocket board) +
      (List.range n).countP (trialTie e sh pocket board) ≤ n := by
    have := countP_disjoint_le (List.range n) (trialWin e sh pocket board)
      (trialTie e sh pocket board) (trialWin_not_tie e sh pocket board)
    simpa using this
  have hnq : (0:ℚ) < (n : ℚ) := by exact_mod_cast hn
  set W := (List.range n).countP (trialWin e sh pocket board) with hW
  set T := (List.range n).countP (trialTie e sh pocket board) with hT
  constructor
  · apply div_nonneg _ (le_of_lt hnq)
    positivity
  · rw [div_le_one hnq]
    have hc : (W:ℚ) + (T:ℚ) ≤ (n:ℚ) := by exact_mod_cast hcount
    have ht : (0:ℚ) ≤ (T:ℚ) := by positivity
    linarith

/-! ### Claim theorems -/

/-- C1: chip conservation.  In every state reachable from table setup via
`start_hand()`, `process_action()` and `advance_phase()`, the sum over all
players of `total_invested` equals the sum over all pots of `amount`. -/
theorem chip_conservation (g : GameController) (h : Reachable g) :
    sumInvested g.table = sumPots g.table := by
  induction h with
  | setup specs sb bb =>
    show sumInvested (mkTable _ sb bb) = sumPots (mkTable _ sb bb)
    unfold sumInvested sumPots mkTable
    dsimp only
    rw [List.map_map]
    rw [sum_map_zero specs (Player.total_invested ∘ fun s => mkPlayer s.1 s.2.1 s.2.2)
      (fun s => rfl)]
    rfl
  | start _ hs ih => exact inv_start hs
  | act _ hs ih => exact inv_act hs ih
  | adv _ hs ih => exact inv_adv hs ih

/-- Witness for C1 at a concrete reachable state: two players with blinds
10/20 after `start_hand()` and a call. -/
theorem chip_conservation_witness :
    sumInvested demoAfterCall.table = sumPots demoAfterCall.table := by
  have h0 : Reachable demoTable :=
    Reachable.setup [("AI_Bot", 1000, true), ("Human", 1000, false)] 10 20
  have h1 : Reachable demoHand := Reachable.start h0 (by decide)
  exact chip_conservation demoAfterCall
    (@Reachable.act demoHand demoAfterCall .CALL 0 h1 (by decide))

/-- C2 (amended): when raising is legal for the acting player, a `RAISE`
below `highest_bet + min_raise` that is not an all-in is rejected with
`invalidRaiseAmount` (so is a `RAISE` with a missing amount); an illegal
`CHECK` is rejected with `illegalAction`; and every such rejection carries
back the caller's state unchanged (atomicity). -/
theorem raise_below_min_rejected (g : GameController) (p : Player) (amount : ℤ)
    (hp : getPlayer g.table g.current_idx = some p) :
    (raiseTruthy (getLegalActions g p).raise_to_min = true →
      amount < g.highest_bet + g.min_raise → amount ≠ p.stack + p.current_bet →
      processAction g .RAISE amount = .error (.invalidRaiseAmount, g)) ∧
    ((getLegalActions g p).check = false →
      processAction g .CHECK amount = .error (.illegalAction, g)) ∧
    (raiseTruthy (getLegalActions g p).raise_to_min = true →
      processAction g .RAISE 0 = .error (.invalidRaiseAmount, g)) ∧
    (∀ (a : PAction) (amt : ℤ) (e : PokerError) (g2 : GameController),
      processAction g a amt = .error (e, g2) → e ≠ .indexError → g2 = g) := by
  refine ⟨?_, ?_, ?_, ?_⟩
  · intro hlegal hlt hne
    unfold processAction
    rw [hp]
    dsimp only
    rw [hlegal]
    simp only [if_true]
    by_cases h0 : amount = 0
    · simp [h0]
    · simp only [h0, if_false]
      have hc : amount < g.highest_bet + g.min_raise ∧ amount ≠ p.stack + p.current_bet :=
        ⟨hlt, hne⟩
      simp [hc]
  · intro hcheck
    unfold processAction
    rw [hp]
    dsimp only
    rw [hcheck]
    simp
  · intro hlegal
    unfold processAction
    rw [hp]
    dsimp only
    rw [hlegal]
    simp
  · intro a amt e g2 hres hne
    unfold processAction at hres
    rw [hp] at hres
    cases a with
    | FOLD => simp at hres
    | CHECK =>
      dsimp only at hres
      split at hres
      · simp at hres
      · injection hres with hres2
        exact (congrArg Prod.snd hres2).symm
    | CALL =>
      dsimp only at hres
      split at hres
      · injection hres with hres2
        exact absurd (congrArg Prod.fst hres2).symm hne
      · simp at hres
    | RAISE =>
      dsimp only at hres
      split at hres
      · split at hres
        · injection hres with hres2
          exact (congrArg Prod.snd hres2).symm
        · split at hres
          · injection hres with hres2
            exact (congrArg Prod.snd hres2).symm
          · split at hres
            · injection hres with hres2
              exact (congrArg Prod.snd hres2).symm
            · split at hres
              · injection hres with hres2
                exact absurd (congrArg Prod.fst hres2).symm hne
              · simp at hres
      · injection hres with hres2
        exact (congrArg Prod.snd hres2).symm

/-- Counterexample to C2 as stated: in a reachable state where the acting
player cannot raise (stack 30 facing a call of 40), a `RAISE 55` — below the
minimum of 100 and not an all-in (all-in total is 50) — is rejected with
`illegalAction`, not `invalidRaiseAmount`. -/
theorem short_stack_raise_illegal :
    startHand shortTable = .ok shortHand ∧
    processAction shortHand .RAISE 60 = .ok shortRaised ∧
    processAction shortRaised .RAISE 55 = .error (.illegalAction, shortRaised) ∧
    (55 : ℤ) < shortRaised.highest_bet + shortRaised.min_raise ∧
    (getPlayer shortRaised.table shortRaised.current_idx).map
      (fun p => decide ((55 : ℤ) ≠ p.stack + p.current_bet)) = some true ∧
    PokerError.illegalAction ≠ PokerError.invalidRaiseAmount := by
  decide

/-- Witness for C2: in the 10/20 heads-up state, a raise to 15 (below the
minimum of 40, not an all-in) is rejected with the state carried unchanged. -/
theorem raise_below_min_rejected_witness :
    processAction demoHand .RAISE 15 = .error (.invalidRaiseAmount, demoHand) := by
  have h := raise_below_min_rejected demoHand demoActor 15 (by decide)
  exact h.1 (by decide) (by decide) (by decide)

/-- C3 (amended): `is_round_over()` is true iff every active, non-all-in
player is in the acted-set and has `current_bet` not below (rather than equal
to) `highest_bet`; folded and all-in players are excluded. -/
theorem isRoundOver_iff_acted_and_matched (g : GameController) :
    isRoundOver g = true ↔
      ∀ (i : ℕ) (p : Player), g.table.players.get? i = some p →
        p.is_active = true → p.is_all_in = false →
        (i : ℤ) ∈ g.acted_this_round ∧ g.highest_bet ≤ p.current_bet := by
  unfold isRoundOver
  rw [List.all_eq_true]
  constructor
  · intro h i p hget ha hna
    have hmem : (i, p) ∈ g.table.players.enum := by
      rw [List.mk_mem_enum_iff_getElem?]
      rw [← List.get?_eq_getElem?]
      exact hget
    have h2 := h (i, p) hmem
    simp only [ha, hna, Bool.and_true, Bool.and_false, Bool.not_false, Bool.not_true,
      Bool.false_or, Bool.and_eq_true, decide_eq_true_eq, Bool.not_eq_true',
      decide_eq_false_iff_not, not_lt] at h2
    exact h2
  · intro h ip hmem
    obtain ⟨i, p⟩ := ip
    have hget : g.table.players.get? i = some p := by
      rw [List.get?_eq_getElem?]
      exact List.mk_mem_enum_iff_getElem?.1 hmem
    cases hact : p.is_active with
    | false => simp [hact]
    | true =>
      cases hallin : p.is_all_in with
      | true => simp [hallin]
      | false =>
        have h3 := h i p hget hact hallin
        simp [hact, hallin, h3.1, not_lt.2 h3.2]

/-- Counterexample to C3 as stated: a state whose only player is active, not
all-in, in the acted-set, and bets 50 against a highest bet of 20.  The code's
`is_round_over()` is true, while the claim's "current_bet equal to
highest_bet" reading is false. -/
theorem isRoundOver_overbet_mismatch :
    isRoundOver overBetState = true ∧
    roundOverSpecClaimed overBetState = false ∧
    (getPlayer overBetState.table 0).map
      (fun p => (p.is_active, p.is_all_in, p.current_bet)) = some (true, false, 50) ∧
    overBetState.highest_bet = 20 ∧
    (0 : ℤ) ∈ overBetState.acted_this_round := by
  decide

/-- C4: an accepted `RAISE` to `amount` always sets `highest_bet := amount`;
when the increment `amount - highest_bet` is at least `min_raise` it sets
`min_raise` to the increment and resets the acted-set to the raiser alone,
and otherwise it leaves `min_raise` alone and only adds the raiser to the
acted-set. -/
theorem raise_updates_minraise_acted (g : GameController) (amount : ℤ) (g' : GameController)
    (h : processAction g .RAISE amount = .ok g') :
    g'.highest_bet = amount ∧
    (g.min_raise ≤ amount - g.highest_bet →
      g'.min_raise = amount - g.highest_bet ∧ g'.acted_this_round = {g.current_idx}) ∧
    (amount - g.highest_bet < g.min_raise →
      g'.min_raise = g.min_raise ∧
      g'.acted_this_round = insert g.current_idx g.acted_this_round) := by
  unfold processAction at h
  rcases hget : getPlayer g.table g.current_idx with _ | p
  · rw [hget] at h; simp at h
  · rw [hget] at h
    dsimp only at h
    split at h
    · split at h
      · simp at h
      · split at h
        · simp at h
        · split at h
          · simp at h
          · split at h
            · simp at h
            · rename_i t2 hpot
              injection h with h2
              subst h2
              by_cases hge : g.min_raise ≤ amount - g.highest_bet
              · simp only [hge, if_true]
                refine ⟨(finishFields _).2.1, fun _ => ⟨?_, ?_⟩,
                  fun hlt => absurd hge (not_le.2 hlt)⟩
                · rw [(finishFields _).1]
                · rw [(finishFields _).2.2.1]
                  rfl
              · simp only [hge, if_false]
                exact ⟨(finishFields _).2.1, fun hf => hf.elim,
                  fun _ => ⟨(finishFields _).1, (finishFields _).2.2.1⟩⟩
    · simp at h

/-- Witness for C4: the heads-up raise to 60 over a highest bet of 20 with
`min_raise` 20 reopens the action: `min_raise` becomes 40 and the acted-set
becomes the raiser alone. -/
theorem raise_updates_minraise_acted_witness :
    demoRaised.highest_bet = 60 ∧ demoRaised.min_raise = 40 ∧
    demoRaised.acted_this_round = {0} := by
  have h := raise_updates_minraise_acted demoHand 60 demoRaised (by decide)
  refine ⟨h.1, ?_, ?_⟩
  · rw [(h.2.1 (by decide)).1]
    decide
  · rw [(h.2.1 (by decide)).2]
    decide

/-- C5: `Player.bet` (used by `start_hand` for the blinds) commits the posted
amount capped at the stack and sets `is_all_in` exactly when the stack is
consumed; in the scenario with two stacks of 100 and big blind 200 (small
blind `200 // 2 = 100` as configured by the main loop), `start_hand()` leaves
a pot of 200 with both players all-in. -/
theorem blinds_capped_all_in :
    (∀ (p : Player) (amt : ℤ), p.is_all_in = false →
      ((p.bet amt).2 = min amt p.stack ∧ ((p.bet amt).1.is_all_in = true ↔ p.stack ≤ amt))) ∧
    (startHand tinyTable = .ok tinyHand ∧ sumPots tinyHand.table = 200 ∧
      tinyHand.table.players.all (fun p => p.is_all_in) = true) := by
  constructor
  · intro p amt hp
    by_cases h : p.stack ≤ amt
    · simp [Player.bet, h, min_eq_right h]
    · have h2 : amt ≤ p.stack := le_of_lt (lt_of_not_le h)
      simp [Player.bet, h, min_eq_left h2, hp]
  · decide

/-- Witness for C5: a blind of 200 posted on a fresh stack of 100 commits
only 100 and forces the all-in flag. -/
theorem blinds_capped_all_in_witness :
    ((mkPlayer "Human" 100 false).bet 200).2 = min 200 (mkPlayer "Human" 100 false).stack ∧
    (((mkPlayer "Human" 100 false).bet 200).1.is_all_in = true ↔
      (mkPlayer "Human" 100 false).stack ≤ 200) :=
  blinds_capped_all_in.1 (mkPlayer "Human" 100 false) 200 rfl

/-- C6 (amended): with two players of stack 1000 and big blind 20,
`start_hand()` yields pot 30 and the first actor is the small blind (index 0,
having posted 10) — the player after the button, while `button_idx` itself
points at the big blind (index 1, having posted 20); the small blind's `CALL`
makes the pot 40, and the other player's `CHECK` then makes `is_round_over()`
true. -/
theorem headsup_scenario :
    startHand demoTable = .ok demoHand ∧
    sumPots demoHand.table = 30 ∧
    demoHand.current_idx = 0 ∧
    (getPlayer demoHand.table 0).map Player.total_invested = some 10 ∧
    demoHand.table.button_idx = 1 ∧
    (getPlayer demoHand.table 1).map Player.total_invested = some 20 ∧
    processAction demoHand .CALL 0 = .ok demoAfterCall ∧
    sumPots demoAfterCall.table = 40 ∧
    isRoundOver demoAfterCall = false ∧
    processAction demoAfterCall .CHECK 0 = .ok demoAfterCheck ∧
    isRoundOver demoAfterCheck = true := by
  decide

/-- Counterexample to C6 as stated: after `start_hand()` the current actor
(index 0) is not the button player — `button_idx` is 1 and the two seats hold
different players. -/
theorem headsup_actor_not_button :
    startHand demoTable = .ok demoHand ∧
    demoHand.current_idx = 0 ∧
    demoHand.table.button_idx = 1 ∧
    getPlayer demoHand.table demoHand.current_idx ≠
      getPlayer demoHand.table demoHand.table.button_idx := by
  decide

/-- C7: the decision policy.  For an actor with a positive stack, a
nonnegative outstanding call and a nonnegative pot: (1) with equity above
0.70 and raising legal, it raises to
`max(highest_bet + min_raise, highest_bet + ⌊pot·(equity − 1/2)⌋)` capped at
the all-in total; (2) otherwise with equity above the pot odds it checks when
the call amount is zero and calls it otherwise; (3) otherwise it checks when
free and folds otherwise. -/
theorem decision_policy_characterization (g : GameController) (p : Player) (equity : ℚ)
    (hp : getPlayer g.table g.current_idx = some p)
    (hstack : 0 < p.stack)
    (hcall : 0 ≤ g.highest_bet - p.current_bet)
    (hpot : 0 ≤ g.table.getTotalPotSize) :
    (7/10 < equity → raiseTruthy (getLegalActions g p).raise_to_min = true →
      getDecision g p equity = some ⟨.RAISE,
        min (max (g.highest_bet + g.min_raise)
          (g.highest_bet + ⌊(g.table.getTotalPotSize : ℚ) * (equity - 1/2)⌋))
          (p.stack + p.current_bet)⟩) ∧
    (¬(7/10 < equity ∧ raiseTruthy (getLegalActions g p).raise_to_min = true) →
      potOddsOf g p < equity →
      getDecision g p equity =
        some (if min (g.highest_bet - p.current_bet) p.stack = 0 then ⟨.CHECK, 0⟩
              else ⟨.CALL, min (g.highest_bet - p.current_bet) p.stack⟩)) ∧
    (¬(7/10 < equity ∧ raiseTruthy (getLegalActions g p).raise_to_min = true) →
      equity ≤ potOddsOf g p →
      getDecision g p equity =
        some (if min (g.highest_bet - p.current_bet) p.stack = 0 then ⟨.CHECK, 0⟩
              else ⟨.FOLD, 0⟩)) := by
  have hcallmin : (getLegalActions g p).call = min (g.highest_bet - p.current_bet) p.stack := rfl
  have htc : (if (getLegalActions g p).call ≠ 0 then (getLegalActions g p).call else 0) =
      (getLegalActions g p).call := by
    by_cases hc : (getLegalActions g p).call = 0 <;> simp [hc]
  have hmin0 : (min (g.highest_bet - p.current_bet) p.stack = 0) ↔
      (g.highest_bet - p.current_bet = 0) := by
    constructor
    · intro h
      by_contra hne
      have hpos : 0 < g.highest_bet - p.current_bet := lt_of_le_of_ne hcall (Ne.symm hne)
      have := lt_min hpos hstack
      omega
    · intro h
      rw [h]
      exact min_eq_left (le_of_lt hstack)
  have hcheck : (getLegalActions g p).check = decide (g.highest_bet - p.current_bet = 0) := rfl
  refine ⟨?_, ?_, ?_⟩
  · intro h7 hleg
    have hcond : (7:ℚ)/10 < equity ∧ raiseTruthy (getLegalActions g p).raise_to_min = true :=
      ⟨h7, hleg⟩
    have hq : (0:ℚ) ≤ (g.table.getTotalPotSize : ℚ) * (equity - 1/2) := by
      have h1 : (0:ℚ) ≤ (g.table.getTotalPotSize : ℚ) := by exact_mod_cast hpot
      have h2 : (0:ℚ) ≤ equity - 1/2 := by linarith
      exact mul_nonneg h1 h2
    unfold getDecision
    rw [hp]
    simp only [Option.map_some']
    rw [if_pos hcond]
    unfold ratTrunc
    rw [if_pos hq]
  · intro hn hlt
    unfold getDecision
    rw [hp]
    simp only [Option.map_some']
    rw [if_neg hn]
    rw [htc]
    have hpo : (if 0 < (getLegalActions g p).call then
        ((getLegalActions g p).call : ℚ) /
          ((g.table.getTotalPotSize : ℚ) + ((getLegalActions g p).call : ℚ)) else 0) =
        potOddsOf g p := rfl
    rw [hpo, if_pos hlt]
    by_cases hc0 : g.highest_bet - p.current_bet = 0
    · have hch : (getLegalActions g p).check = true := by rw [hcheck]; simp [hc0]
      rw [if_pos hch, if_pos (hmin0.2 hc0)]
    · have hch : (getLegalActions g p).check = false := by rw [hcheck]; simp [hc0]
      rw [if_neg (by rw [hch]; exact fun hh => by cases hh),
        if_neg (fun hh => hc0 (hmin0.1 hh))]
      rw [hcallmin]
  · intro hn hge
    unfold getDecision
    rw [hp]
    simp only [Option.map_some']
    rw [if_neg hn]
    rw [htc]
    have hpo : (if 0 < (getLegalActions g p).call then
        ((getLegalActions g p).call : ℚ) /
          ((g.table.getTotalPotSize : ℚ) + ((getLegalActions g p).call : ℚ)) else 0) =
        potOddsOf g p := rfl
    rw [hpo, if_neg (not_lt.2 hge)]
    by_cases hc0 : g.highest_bet - p.current_bet = 0
    · have hch : (getLegalActions g p).check = true := by rw [hcheck]; simp [hc0]
      rw [if_pos hch, if_pos (hmin0.2 hc0)]
    · have hch : (getLegalActions g p).check = false := by rw [hcheck]; simp [hc0]
      rw [if_neg (by rw [hch]; exact fun hh => by cases hh),
        if_neg (fun hh => hc0 (hmin0.1 hh))]

/-- Witness for C7: in the 10/20 heads-up state with equity 4/5, the policy
raises to `min(max(40, 20 + ⌊30·(4/5 − 1/2)⌋), 1000) = 40`. -/
theorem decision_policy_witness :
    getDecision demoHand demoActor (4/5) = some ⟨.RAISE, 40⟩ := by
  have h := (decision_policy_characterization demoHand demoActor (4/5)
    (by decide) (by decide) (by decide) (by decide)).1 (by norm_num) (by decide)
  rw [h]
  have hq : ((demoHand.table.getTotalPotSize : ℚ) * (4/5 - 1/2)) = 9 := by
    have : demoHand.table.getTotalPotSize = 30 := by decide
    rw [this]
    norm_num
  rw [hq]
  have h9 : ⌊(9:ℚ)⌋ = 9 := by norm_num
  rw [h9]
  decide

/-- C8: the equity estimator.  With a nonempty pocket of at most two cards, a
board of at most five, a positive iteration count, and each trial's shuffle a
permutation of the deck minus the known cards (the oracle modelling
`random.shuffle`): the result is `(wins + ties/2) / n` where wins and ties
count the trials with a strictly smaller, resp. equal, hero evaluator rank;
the result lies in `[0, 1]`; and every trial draws exactly
`2 + (5 − |board|)` pairwise-distinct cards disjoint from the pocket and the
board (exact draws without replacement). -/
theorem mc_equity_characterization (e : List ℕ → List ℕ → ℕ) (sh : ℕ → List ℕ → List ℕ)
    (pocket board : List ℕ) (n : ℕ)
    (hpock : pocket ≠ []) (hn : 0 < n)
    (hpl : pocket.length ≤ 2) (hbl : board.length ≤ 5)
    (hperm : ∀ t, t < n →
      (sh t (fullDeck.filter fun c => decide (c ∉ pocket ++ board))).Perm
        (fullDeck.filter fun c => decide (c ∉ pocket ++ board))) :
    (mcEquity e sh pocket board n =
      (((List.range n).countP (trialWin e sh pocket board) : ℚ) +
        ((List.range n).countP (trialTie e sh pocket board) : ℚ) / 2) / (n : ℚ)) ∧
    (0 ≤ mcEquity e sh pocket board n ∧ mcEquity e sh pocket board n ≤ 1) ∧
    (∀ t, t < n →
      (trialDraws sh pocket board t).length = 2 + (5 - board.length) ∧
      (trialDraws sh pocket board t).Nodup ∧
      ∀ c ∈ trialDraws sh pocket board t, c ∉ pocket ∧ c ∉ board) := by
  refine ⟨mc_formula e sh pocket board n hpock, mc_bounds e sh pocket board n hpock hn, ?_⟩
  intro t ht
  exact trialDraws_props sh pocket board t (by omega) (hperm t ht)

/-- Witness for C8 with the identity shuffle and a constant evaluator (every
trial ties): the estimate lies in the unit interval. -/
theorem mc_equity_witness :
    0 ≤ mcEquity (fun _ _ => 0) (fun _ l => l) [0, 1] [] 2 ∧
    mcEquity (fun _ _ => 0) (fun _ l => l) [0, 1] [] 2 ≤ 1 :=
  (mc_equity_characterization (fun _ _ => 0) (fun _ l => l) [0, 1] [] 2 (by decide)
    (by decide) (by decide) (by decide) (fun t ht => List.Perm.refl _)).2.1

/-- C9 (amended): the card parser, characterized over every input string.
The two-token form is accepted in either order (`<Suit> <Rank>` or
`<Rank> <Suit>`), the three-token form is `<Rank> OF <Suit>`; a recognized
shape whose tokens do not map fails with `invalidSuitOrRank`, and every other
shape fails with `invalidFormat`. -/
theorem parseCard_characterization (s : String) : parseCard s = parseCardSpecAmended s := by
  unfold parseCard parseCardSpecAmended cardOfTokens
  cases hts : pyTokens s with
  | nil => rfl
  | cons a ts =>
    cases ts with
    | nil => rfl
    | cons b ts2 =>
      cases ts2 with
      | nil =>
        rcases h1 : SUITS a with _ | sa <;> rcases h2 : RANKS a with _ | ra <;>
          rcases h3 : SUITS b with _ | sb <;> rcases h4 : RANKS b with _ | rb <;>
          simp [h1, h2, h3, h4]
      | cons c0 ts3 =>
        cases ts3 with
        | nil =>
          by_cases hb : b = "OF"
          · rcases h1 : SUITS c0 with _ | sc <;> rcases h2 : RANKS a with _ | rc <;>
              simp [hb, h1, h2]
          · simp [hb]
        | cons d ts4 => rfl

/-- Counterexample to C9 as stated: "Ace Spade" is in neither of the two
claimed forms (it is rank-first without "OF"), yet the parser accepts it; the
claim's reading rejects it with `invalidSuitOrRank`. -/
theorem parseCard_accepts_rank_suit :
    parseCard "Ace Spade" = .ok "As" ∧
    parseCardSpecClaimed "Ace Spade" = .error .invalidSuitOrRank := by
  decide

/-- C10: the equity estimator returns exactly 0 for an empty hero hand, for
every board, iteration count, evaluator and shuffle oracle — no trial is
performed and no card drawn. -/
theorem mcEquity_empty_pocket (evalRank : List ℕ → List ℕ → ℕ)
    (shuffle : ℕ → List ℕ → List ℕ) (board : List ℕ) (iterations : ℕ) :
    mcEquity evalRank shuffle [] board iterations = 0 := rfl
